import Mathlib

/-!
Verification development for the `ec2_vpc_net` reconciliation module
(`lib/ansible/modules/cloud/amazon/ec2_vpc_net.py`).

The module reconciles a single VPC against a desired state: it looks the
resource up by Name tag and CIDR block, creates or deletes it, diffs and
rewrites tags and the DHCP-options association, unconditionally writes the
DNS attributes, and honours check mode (dry run).

We embed the module's logic shallowly.  The remote AWS service is an
external collaborator; following the spec's `NetworkResourceService`
contract we model it as a `World` of VPC records together with a set of
calls that raise remote errors, and every run records the ordered trace of
service calls it performed.
-/

/-- A tag mapping as the module sees it: an association list of key/value
pairs.  Python dicts never hold duplicate keys; where a proof needs that
fact it is an explicit hypothesis (`keysNodup`). -/
abbrev Tags := List (String × String)

/-- First-match association-list lookup (Python `dict[k]` access). -/
def dictLookup : Tags → String → Option String
  | [], _ => none
  | (k0, v0) :: rest, k => if k0 = k then some v0 else dictLookup rest k

/-- Python `d.update({k: v})`: replace the value at `k` in place if the key
is present, otherwise append the pair. -/
def dictUpdate : Tags → String → String → Tags
  | [], k, v => [(k, v)]
  | (k0, v0) :: rest, k, v =>
    if k0 = k then (k, v) :: rest else (k0, v0) :: dictUpdate rest k v

/-- Python dict equality (`tags != current_tags` in `update_vpc_tags`):
every pair of each side is found by lookup in the other.  On duplicate-free
lists this is set equality of key/value pairs. -/
def dictEq (a b : Tags) : Bool :=
  a.all (fun p => decide (dictLookup b p.1 = some p.2)) &&
    b.all (fun p => decide (dictLookup a p.1 = some p.2))

/-- The keys of a tag list are pairwise distinct. -/
def keysNodup (a : Tags) : Prop := (a.map Prod.fst).Nodup

instance (a : Tags) : Decidable (keysNodup a) := by
  unfold keysNodup; infer_instance

/-- The desired state handed to the module (`module.params` of interest).
`multi_ok` is the spec's `allow_duplicates`. -/
structure DesiredState where
  name : String
  cidr_block : String
  tenancy : String
  dns_support : Bool
  dns_hostnames : Bool
  dhcp_opts_id : Option String
  tags : Option Tags
  multi_ok : Bool
deriving DecidableEq

/-- A remote VPC record (`vpc_obj`), with the attributes the module reads
or writes.  DNS attributes are not stored: the provider offers no way to
read them back (module comment at the `modify_vpc_attribute` calls). -/
structure VpcObj where
  id : String
  cidr_block : String
  instance_tenancy : String
  dhcp_options_id : String
  tags : Tags
deriving DecidableEq

/-- One call to the remote service, named after the spec's
`NetworkResourceService` contract.  The source's boto calls map onto it:
`get_all_vpcs`-with-filters is `find`, `create_vpc` is `create`,
`delete_vpc` is `delete`, `get_all_tags` is `getTags`, `create_tags` is
`setTags`, `associate_dhcp_options` is `associateDhcpOptions`, the pair of
`modify_vpc_attribute` calls is `setDnsAttributes`, and
`get_all_vpcs`-by-id is `get`. -/
inductive ServiceCall where
  | find (name cidr : String)
  | create (cidr tenancy : String)
  | delete (id : String)
  | getTags (id : String)
  | setTags (id : String) (tags : Tags)
  | associateDhcpOptions (dhcpId id : String)
  | setDnsAttributes (id : String) (support hostnames : Bool)
  | get (id : String)
deriving DecidableEq

/-- A call is mutating when it can change remote state. -/
def ServiceCall.isMutating : ServiceCall → Bool
  | .create _ _ => true
  | .delete _ => true
  | .setTags _ _ => true
  | .associateDhcpOptions _ _ => true
  | .setDnsAttributes _ _ _ => true
  | _ => false

/-- A call is a pure lookup: `find` or `getTags`. -/
def ServiceCall.isLookup : ServiceCall → Bool
  | .find _ _ => true
  | .getTags _ => true
  | _ => false

/-- The remote world: the provider's VPCs, a counter for fresh resource
ids, the account's default DHCP-options id given to new VPCs, and the set
of service calls that raise a remote error when issued. -/
structure World where
  vpcs : List VpcObj
  nextId : Nat
  defaultDhcpId : String
  failing : List ServiceCall
deriving DecidableEq

/-- `find(nameTag, cidr)`: the VPCs matching the module's filter
`{tag:Name: name, cidr-block: cidr_block}` (in `vpc_exists`). -/
def World.findVpcs (w : World) (name cidr : String) : List VpcObj :=
  w.vpcs.filter
    (fun v => decide (dictLookup v.tags "Name" = some name ∧ v.cidr_block = cidr))

/-- `getTags(id)`: the tag dict of the VPC with the given id (the
`get_all_tags` resource-id filter), empty when no such VPC exists. -/
def World.getTags (w : World) (id : String) : Tags :=
  match w.vpcs.find? (fun v => decide (v.id = id)) with
  | some v => v.tags
  | none => []

/-- `setTags(id, tags)`: replace the tag mapping of the VPC with that id. -/
def World.setTags (w : World) (id : String) (ts : Tags) : World :=
  { w with vpcs := w.vpcs.map (fun v => if v.id = id then { v with tags := ts } else v) }

/-- `associateDhcpOptions(dhcpId, id)`: repoint that VPC's DHCP options. -/
def World.associateDhcp (w : World) (id dhcpId : String) : World :=
  { w with vpcs :=
      w.vpcs.map (fun v => if v.id = id then { v with dhcp_options_id := dhcpId } else v) }

/-- `delete(id)`: remove the VPC with that id. -/
def World.deleteVpc (w : World) (id : String) : World :=
  { w with vpcs := w.vpcs.filter (fun v => decide (v.id ≠ id)) }

/-- The errors the module can terminate with (`module.fail_json`):
the DNS-combination validation failure, the duplicate-match failure of
`vpc_exists`, and a remote service error on a given call. -/
inductive RErr where
  | validation
  | ambiguous (n : Nat)
  | remote (c : ServiceCall)
deriving DecidableEq

deriving instance DecidableEq for Except

/-- Outcome of one module invocation: the final world, the ordered trace of
service calls, and either an error or `exit_json`'s `(changed, vpc)`. -/
structure RunResult where
  world : World
  calls : List ServiceCall
  outcome : Except RErr (Bool × Option VpcObj)
deriving DecidableEq

/-- One stage of the run: a value or error, the world after the stage, and
the calls the stage itself issued. -/
abbrev StageOut (α : Type) := Except RErr α × World × List ServiceCall

/-- `vpc_exists` (lines 149-171): call `find`, then — note, after the call —
if `multi` report not-found; one match binds; several matches fail. -/
def vpc_exists (w : World) (name cidr : String) (multi : Bool) :
    StageOut (Option VpcObj) :=
  let c := ServiceCall.find name cidr
  if c ∈ w.failing then (.error (.remote c), w, [c])
  else
    let ms := w.findVpcs name cidr
    if multi then (.ok none, w, [c])
    else
      match ms with
      | [] => (.ok none, w, [c])
      | [m] => (.ok (some m), w, [c])
      | ms => (.error (.ambiguous ms.length), w, [c])

/-- The `create_vpc(cidr_block, instance_tenancy=tenancy)` call (line 275):
a fresh id, the given CIDR and tenancy, the account-default DHCP options,
and no tags yet. -/
def createStep (w : World) (cidr tenancy : String) : StageOut VpcObj :=
  let c := ServiceCall.create cidr tenancy
  if c ∈ w.failing then (.error (.remote c), w, [c])
  else
    let v : VpcObj :=
      { id := "vpc-" ++ toString w.nextId, cidr_block := cidr,
        instance_tenancy := tenancy, dhcp_options_id := w.defaultDhcpId,
        tags := [] }
    (.ok v, { w with vpcs := w.vpcs ++ [v], nextId := w.nextId + 1 }, [c])

/-- `update_dhcp_opts` (lines 193-200): compare first, then gate the
mutation on check mode; return whether the step would change anything. -/
def update_dhcp_opts (w : World) (checkMode : Bool) (vpcObj : VpcObj)
    (dhcpId : String) : StageOut Bool :=
  if vpcObj.dhcp_options_id ≠ dhcpId then
    if !checkMode then
      let c := ServiceCall.associateDhcpOptions dhcpId vpcObj.id
      if c ∈ w.failing then (.error (.remote c), w, [c])
      else (.ok true, w.associateDhcp vpcObj.id dhcpId, [c])
    else (.ok true, w, [])
  else (.ok false, w, [])

/-- `update_vpc_tags` (lines 174-190): default the tags to an empty dict,
force `Name` to the desired name, fetch the current tags, and rewrite them
(unless check mode) exactly when the dicts differ. -/
def update_vpc_tags (w : World) (checkMode : Bool) (vpcObj : VpcObj)
    (tags : Option Tags) (name : String) : StageOut Bool :=
  let tags0 := tags.getD []
  let tags1 := dictUpdate tags0 "Name" name
  let cGet := ServiceCall.getTags vpcObj.id
  if cGet ∈ w.failing then (.error (.remote cGet), w, [cGet])
  else
    let current := w.getTags vpcObj.id
    if !dictEq tags1 current then
      if !checkMode then
        let cSet := ServiceCall.setTags vpcObj.id tags1
        if cSet ∈ w.failing then (.error (.remote cSet), w, [cGet, cSet])
        else (.ok true, w.setTags vpcObj.id tags1, [cGet, cSet])
      else (.ok true, w, [cGet])
    else (.ok false, w, [cGet])

/-- The `if dhcp_id is not None` guard around `update_dhcp_opts`
(lines 281-286). -/
def dhcpStage (w : World) (checkMode : Bool) (vpcObj : VpcObj)
    (dhcpId : Option String) : StageOut Bool :=
  match dhcpId with
  | none => (.ok false, w, [])
  | some did => update_dhcp_opts w checkMode vpcObj did

/-- The unconditional DNS-attribute write (lines 298-304): both
`modify_vpc_attribute` calls, gated only on check mode.  It changes nothing
the model can observe — the provider cannot report DNS attribute state —
and its result never feeds the changed flag. -/
def dnsStage (w : World) (checkMode : Bool) (vpcObj : VpcObj)
    (support hostnames : Bool) : StageOut Unit :=
  if !checkMode then
    let c := ServiceCall.setDnsAttributes vpcObj.id support hostnames
    if c ∈ w.failing then (.error (.remote c), w, [c])
    else (.ok (), w, [c])
  else (.ok (), w, [])

/-- The post-mutation re-fetch (lines 306-312): outside check mode, get the
VPC again by id; a remote error is `fail_json`ed.  (A vanished VPC would
make the source's `[0]` indexing raise; without external drift the VPC is
always present, and we fold that impossible case into a remote error.) -/
def refetchStage (w : World) (checkMode : Bool) (vpcObj : VpcObj) :
    StageOut VpcObj :=
  if !checkMode then
    let c := ServiceCall.get vpcObj.id
    if c ∈ w.failing then (.error (.remote c), w, [c])
    else
      match w.vpcs.find? (fun v => decide (v.id = vpcObj.id)) with
      | some v => (.ok v, w, [c])
      | none => (.error (.remote c), w, [c])
  else (.ok vpcObj, w, [])

/-- The tail of the `state == present` branch once a VPC object is bound
(lines 281-314): DHCP step, tag step (its `tags is not None or name is not
None` guard always holds, `name` being a required parameter), DNS step,
re-fetch, `exit_json`. -/
def presentRest (d : DesiredState) (checkMode : Bool) (changed0 : Bool)
    (vpcObj : VpcObj) (w : World) (cs : List ServiceCall) : RunResult :=
  match dhcpStage w checkMode vpcObj d.dhcp_opts_id with
  | (.error e, w1, cs1) => ⟨w1, cs ++ cs1, .error e⟩
  | (.ok ch1, w1, cs1) =>
    match update_vpc_tags w1 checkMode vpcObj d.tags d.name with
    | (.error e, w2, cs2) => ⟨w2, cs ++ cs1 ++ cs2, .error e⟩
    | (.ok ch2, w2, cs2) =>
      match dnsStage w2 checkMode vpcObj d.dns_support d.dns_hostnames with
      | (.error e, w3, cs3) => ⟨w3, cs ++ cs1 ++ cs2 ++ cs3, .error e⟩
      | (.ok _, w3, cs3) =>
        match refetchStage w3 checkMode vpcObj with
        | (.error e, w4, cs4) => ⟨w4, cs ++ cs1 ++ cs2 ++ cs3 ++ cs4, .error e⟩
        | (.ok vFinal, w4, cs4) =>
          ⟨w4, cs ++ cs1 ++ cs2 ++ cs3 ++ cs4,
            .ok (changed0 || ch1 || ch2, some vFinal)⟩

/-- The `state == present` branch of `main` (lines 263-314), including the
shared `dns_hostnames ⇒ dns_support` validation at line 263.  In check
mode, a missing VPC exits immediately with `changed=true` and no resource. -/
def ensurePresent (d : DesiredState) (checkMode : Bool) (w : World) :
    RunResult :=
  if d.dns_hostnames && !d.dns_support then ⟨w, [], .error .validation⟩
  else
    match vpc_exists w d.name d.cidr_block d.multi_ok with
    | (.error e, w1, cs1) => ⟨w1, cs1, .error e⟩
    | (.ok none, w1, cs1) =>
      if checkMode then ⟨w1, cs1, .ok (true, none)⟩
      else
        match createStep w1 d.cidr_block d.tenancy with
        | (.error e, w2, cs2) => ⟨w2, cs1 ++ cs2, .error e⟩
        | (.ok v, w2, cs2) => presentRest d checkMode true v w2 (cs1 ++ cs2)
    | (.ok (some v), w1, cs1) => presentRest d checkMode false v w1 cs1

/-- The `state == absent` branch of `main` (lines 263-264 and 316-332):
the same validation and lookup, then delete unless check mode. -/
def ensureAbsent (d : DesiredState) (checkMode : Bool) (w : World) :
    RunResult :=
  if d.dns_hostnames && !d.dns_support then ⟨w, [], .error .validation⟩
  else
    match vpc_exists w d.name d.cidr_block d.multi_ok with
    | (.error e, w1, cs1) => ⟨w1, cs1, .error e⟩
    | (.ok none, w1, cs1) => ⟨w1, cs1, .ok (false, none)⟩
    | (.ok (some v), w1, cs1) =>
      if !checkMode then
        let c := ServiceCall.delete v.id
        if c ∈ w1.failing then ⟨w1, cs1 ++ [c], .error (.remote c)⟩
        else ⟨w1.deleteVpc v.id, cs1 ++ [c], .ok (true, none)⟩
      else ⟨w1, cs1, .ok (true, none)⟩

/-- Ids in a world are pairwise distinct and the id `create` would mint is
not already taken — the sanity conditions under which the model's by-id
operations address a single VPC. -/
def World.wf (w : World) : Prop :=
  (w.vpcs.map VpcObj.id).Nodup ∧
    ∀ v ∈ w.vpcs, v.id ≠ "vpc-" ++ toString w.nextId

instance (w : World) : Decidable w.wf := by
  unfold World.wf; infer_instance

/-! ### Association-list (Python dict) lemmas -/

theorem dictLookup_dictUpdate_self (a : Tags) (k v : String) :
    dictLookup (dictUpdate a k v) k = some v := by
  induction a with
  | nil => simp [dictUpdate, dictLookup]
  | cons p rest ih =>
    by_cases h : p.1 = k
    · simp [dictUpdate, h, dictLookup]
    · simp [dictUpdate, h, dictLookup, ih]

theorem dictLookup_dictUpdate_ne (a : Tags) (k v k' : String) (h : k' ≠ k) :
    dictLookup (dictUpdate a k v) k' = dictLookup a k' := by
  have hne : ¬k = k' := fun hh => h hh.symm
  induction a with
  | nil =>
    simp only [dictUpdate, dictLookup, if_neg hne]
  | cons p rest ih =>
    obtain ⟨pk, pv⟩ := p
    by_cases hp : pk = k
    · have hne2 : ¬pk = k' := fun hh => hne (hp.symm.trans hh)
      simp only [dictUpdate, if_pos hp, dictLookup, if_neg hne, if_neg hne2]
    · simp only [dictUpdate, if_neg hp, dictLookup]
      by_cases hk : pk = k'
      · simp [hk]
      · simp [hk, ih]

theorem mem_dictUpdate_self (a : Tags) (k v : String) :
    (k, v) ∈ dictUpdate a k v := by
  induction a with
  | nil => simp [dictUpdate]
  | cons p rest ih =>
    by_cases h : p.1 = k
    · simp [dictUpdate, h]
    · simp only [dictUpdate, h, if_false]
      exact List.mem_cons_of_mem _ ih

theorem keys_dictUpdate (a : Tags) (k v : String) :
    (dictUpdate a k v).map Prod.fst = if k ∈ a.map Prod.fst then a.map Prod.fst
      else a.map Prod.fst ++ [k] := by
  induction a with
  | nil => simp [dictUpdate]
  | cons p rest ih =>
    obtain ⟨pk, pv⟩ := p
    by_cases h : pk = k
    · simp [dictUpdate, h]
    · have hne : ¬k = pk := fun hh => h hh.symm
      simp only [dictUpdate, if_neg h, List.map_cons, ih, List.mem_cons, hne,
        false_or]
      by_cases hk : k ∈ rest.map Prod.fst
      · simp [hk]
      · simp [hk]

theorem keysNodup_dictUpdate (a : Tags) (k v : String) (h : keysNodup a) :
    keysNodup (dictUpdate a k v) := by
  unfold keysNodup at h ⊢
  rw [keys_dictUpdate]
  by_cases hk : k ∈ a.map Prod.fst
  · simpa [hk] using h
  · simp only [hk, if_false]
    rw [List.nodup_append]
    refine ⟨h, List.nodup_singleton k, ?_⟩
    intro x hx hxk
    rw [List.mem_singleton] at hxk
    exact hk (hxk ▸ hx)

theorem dictLookup_eq_some_of_mem (a : Tags) (k v : String)
    (hn : keysNodup a) (hm : (k, v) ∈ a) : dictLookup a k = some v := by
  induction a with
  | nil => simp at hm
  | cons p rest ih =>
    unfold keysNodup at hn
    simp only [List.map_cons, List.nodup_cons] at hn
    rcases List.mem_cons.mp hm with hm | hm
    · simp [← hm, dictLookup]
    · have hne : p.1 ≠ k := by
        intro he
        exact hn.1 (he ▸ (List.mem_map.mpr ⟨(k, v), hm, rfl⟩))
      simp only [dictLookup, hne, if_false]
      exact ih hn.2 hm

theorem mem_of_dictLookup_eq_some (a : Tags) (k v : String)
    (h : dictLookup a k = some v) : (k, v) ∈ a := by
  induction a with
  | nil => simp [dictLookup] at h
  | cons p rest ih =>
    obtain ⟨pk, pv⟩ := p
    by_cases hp : pk = k
    · simp only [dictLookup, if_pos hp, Option.some.injEq] at h
      exact List.mem_cons.mpr (Or.inl (by rw [← hp, ← h]))
    · simp only [dictLookup, if_neg hp] at h
      exact List.mem_cons_of_mem _ (ih h)

theorem dictEq_true_iff_forall (a b : Tags) :
    dictEq a b = true ↔
      (∀ p ∈ a, dictLookup b p.1 = some p.2) ∧
        (∀ p ∈ b, dictLookup a p.1 = some p.2) := by
  unfold dictEq
  simp

theorem dictEq_true_iff (a b : Tags) (ha : keysNodup a) (hb : keysNodup b) :
    dictEq a b = true ↔ (∀ p, p ∈ a ↔ p ∈ b) := by
  rw [dictEq_true_iff_forall]
  constructor
  · rintro ⟨h1, h2⟩ p
    constructor
    · intro hp
      exact mem_of_dictLookup_eq_some b p.1 p.2 (h1 p hp)
    · intro hp
      exact mem_of_dictLookup_eq_some a p.1 p.2 (h2 p hp)
  · intro h
    constructor
    · intro p hp
      exact dictLookup_eq_some_of_mem b p.1 p.2 hb ((h p).mp hp)
    · intro p hp
      exact dictLookup_eq_some_of_mem a p.1 p.2 ha ((h p).mpr hp)

theorem dictEq_refl (a : Tags) (h : keysNodup a) : dictEq a a = true := by
  rw [dictEq_true_iff_forall]
  exact ⟨fun p hp => dictLookup_eq_some_of_mem a p.1 p.2 h hp,
    fun p hp => dictLookup_eq_some_of_mem a p.1 p.2 h hp⟩

theorem dictEq_lookup_of_mem (a b : Tags) (k v : String)
    (he : dictEq a b = true) (hm : (k, v) ∈ a) : dictLookup b k = some v :=
  ((dictEq_true_iff_forall a b).mp he).1 (k, v) hm

/-! ### List lemmas about by-id updates of the VPC population -/

theorem filter_map_stable (l : List VpcObj) (p : VpcObj → Bool)
    (g : VpcObj → VpcObj) (h : ∀ v ∈ l, p (g v) = p v) :
    (l.map g).filter p = (l.filter p).map g := by
  induction l with
  | nil => rfl
  | cons a t ih =>
    have ha := h a (List.mem_cons_self a t)
    have ht : ∀ v ∈ t, p (g v) = p v := fun v hv => h v (List.mem_cons_of_mem a hv)
    by_cases hp : p a = true
    · simp [List.filter, ha, hp, ih ht]
    · simp only [Bool.not_eq_true] at hp
      simp [List.filter, ha, hp, ih ht]

theorem find?_map_stable (l : List VpcObj) (p : VpcObj → Bool)
    (g : VpcObj → VpcObj) (h : ∀ v ∈ l, p (g v) = p v) :
    (l.map g).find? p = Option.map g (l.find? p) := by
  induction l with
  | nil => rfl
  | cons a t ih =>
    have ha := h a (List.mem_cons_self a t)
    have ht : ∀ v ∈ t, p (g v) = p v := fun v hv => h v (List.mem_cons_of_mem a hv)
    by_cases hp : p a = true
    · simp [List.find?, ha, hp]
    · simp only [Bool.not_eq_true] at hp
      simp [List.find?, ha, hp, ih ht]

theorem map_id_stable (l : List VpcObj) (g : VpcObj → VpcObj)
    (h : ∀ v ∈ l, (g v).id = v.id) : (l.map g).map VpcObj.id = l.map VpcObj.id := by
  induction l with
  | nil => rfl
  | cons a t ih =>
    simp only [List.map_cons, h a (List.mem_cons_self a t),
      ih (fun v hv => h v (List.mem_cons_of_mem a hv))]

theorem eq_of_mem_id_eq (l : List VpcObj) (hn : (l.map VpcObj.id).Nodup)
    (u v : VpcObj) (hu : u ∈ l) (hv : v ∈ l) (hid : u.id = v.id) : u = v := by
  induction l with
  | nil => simp at hu
  | cons a t ih =>
    simp only [List.map_cons, List.nodup_cons] at hn
    rcases List.mem_cons.mp hu with hu1 | hu1 <;>
      rcases List.mem_cons.mp hv with hv1 | hv1
    · rw [hu1, hv1]
    · exact absurd (List.mem_map.mpr ⟨v, hv1, (hu1 ▸ hid).symm⟩) hn.1
    · exact absurd (List.mem_map.mpr ⟨u, hu1, (hv1 ▸ hid.symm).symm⟩) hn.1
    · exact ih hn.2 hu1 hv1

theorem find?_id_self (l : List VpcObj) (hn : (l.map VpcObj.id).Nodup)
    (u : VpcObj) (hu : u ∈ l) :
    l.find? (fun v => decide (v.id = u.id)) = some u := by
  induction l with
  | nil => simp at hu
  | cons a t ih =>
    simp only [List.map_cons, List.nodup_cons] at hn
    by_cases ha : a.id = u.id
    · have : a = u := eq_of_mem_id_eq (a :: t)
        (by simp only [List.map_cons, List.nodup_cons]; exact hn)
        a u (List.mem_cons_self a t) hu ha
      simp [List.find?, ha, this]
    · have hu1 : u ∈ t := by
        rcases List.mem_cons.mp hu with h1 | h1
        · exact absurd (congrArg VpcObj.id h1.symm) ha
        · exact h1
      simp [List.find?, ha, ih hn.2 hu1]

/-! ### Stage characterizations -/

theorem vpc_exists_frame (w : World) (n c : String) (m : Bool) :
    (vpc_exists w n c m).2.1 = w ∧ (vpc_exists w n c m).2.2 = [ServiceCall.find n c] := by
  unfold vpc_exists
  by_cases hf : ServiceCall.find n c ∈ w.failing
  · simp [hf]
  · simp only [if_neg hf]
    cases m
    · cases hms : w.findVpcs n c with
      | nil => simp
      | cons a t => cases t <;> simp
    · simp

theorem vpc_exists_fail (w : World) (n c : String) (m : Bool)
    (hf : ServiceCall.find n c ∈ w.failing) :
    vpc_exists w n c m =
      (.error (.remote (ServiceCall.find n c)), w, [ServiceCall.find n c]) := by
  simp [vpc_exists, hf]

theorem vpc_exists_empty (w : World) (n c : String) (m : Bool)
    (hf : ServiceCall.find n c ∉ w.failing) (he : w.findVpcs n c = []) :
    vpc_exists w n c m = (.ok none, w, [ServiceCall.find n c]) := by
  simp only [vpc_exists, if_neg hf, he]
  cases m <;> simp

theorem vpc_exists_multi_true (w : World) (n c : String)
    (hf : ServiceCall.find n c ∉ w.failing) :
    vpc_exists w n c true = (.ok none, w, [ServiceCall.find n c]) := by
  simp [vpc_exists, hf]

theorem vpc_exists_one (w : World) (n c : String) (v : VpcObj)
    (hf : ServiceCall.find n c ∉ w.failing) (hm : w.findVpcs n c = [v]) :
    vpc_exists w n c false = (.ok (some v), w, [ServiceCall.find n c]) := by
  simp [vpc_exists, hf, hm]

theorem vpc_exists_many (w : World) (n c : String) (a b : VpcObj) (t : List VpcObj)
    (hf : ServiceCall.find n c ∉ w.failing) (hm : w.findVpcs n c = a :: b :: t) :
    vpc_exists w n c false =
      (.error (.ambiguous (a :: b :: t).length), w, [ServiceCall.find n c]) := by
  simp [vpc_exists, hf, hm]

theorem createStep_ok (w : World) (cidr tenancy : String)
    (hf : ServiceCall.create cidr tenancy ∉ w.failing) :
    createStep w cidr tenancy =
      (.ok { id := "vpc-" ++ toString w.nextId, cidr_block := cidr,
             instance_tenancy := tenancy, dhcp_options_id := w.defaultDhcpId,
             tags := [] },
       { w with
           vpcs := w.vpcs ++
             [{ id := "vpc-" ++ toString w.nextId, cidr_block := cidr,
                instance_tenancy := tenancy, dhcp_options_id := w.defaultDhcpId,
                tags := [] }],
           nextId := w.nextId + 1 },
       [ServiceCall.create cidr tenancy]) := by
  simp [createStep, hf]

theorem update_dhcp_opts_eq (w : World) (cm : Bool) (v : VpcObj) (did : String)
    (hf : ServiceCall.associateDhcpOptions did v.id ∉ w.failing) :
    update_dhcp_opts w cm v did =
      (.ok (decide (v.dhcp_options_id ≠ did)),
       if v.dhcp_options_id ≠ did ∧ cm = false then w.associateDhcp v.id did else w,
       if v.dhcp_options_id ≠ did ∧ cm = false
         then [ServiceCall.associateDhcpOptions did v.id] else []) := by
  unfold update_dhcp_opts
  by_cases hd : v.dhcp_options_id ≠ did
  · cases cm
    · simp [hd, hf]
    · simp [hd]
  · simp [hd]

theorem update_dhcp_opts_check (w : World) (v : VpcObj) (did : String) :
    update_dhcp_opts w true v did =
      (.ok (decide (v.dhcp_options_id ≠ did)), w, []) := by
  unfold update_dhcp_opts
  by_cases hd : v.dhcp_options_id ≠ did
  · simp [hd]
  · simp [hd]

theorem dhcpStage_none (w : World) (cm : Bool) (v : VpcObj) :
    dhcpStage w cm v none = (.ok false, w, []) := rfl

theorem dhcpStage_some (w : World) (cm : Bool) (v : VpcObj) (did : String) :
    dhcpStage w cm v (some did) = update_dhcp_opts w cm v did := rfl

theorem update_vpc_tags_eq (w : World) (cm : Bool) (v : VpcObj)
    (tags : Option Tags) (name : String)
    (hg : ServiceCall.getTags v.id ∉ w.failing)
    (hs : ServiceCall.setTags v.id (dictUpdate (tags.getD []) "Name" name) ∉ w.failing) :
    update_vpc_tags w cm v tags name =
      (.ok (!dictEq (dictUpdate (tags.getD []) "Name" name) (w.getTags v.id)),
       if dictEq (dictUpdate (tags.getD []) "Name" name) (w.getTags v.id) = false ∧ cm = false
         then w.setTags v.id (dictUpdate (tags.getD []) "Name" name) else w,
       if dictEq (dictUpdate (tags.getD []) "Name" name) (w.getTags v.id) = false ∧ cm = false
         then [ServiceCall.getTags v.id,
               ServiceCall.setTags v.id (dictUpdate (tags.getD []) "Name" name)]
         else [ServiceCall.getTags v.id]) := by
  unfold update_vpc_tags
  simp only [if_neg hg]
  by_cases he : dictEq (dictUpdate (tags.getD []) "Name" name) (w.getTags v.id) = false
  · cases cm
    · simp [he, hs]
    · simp [he]
  · simp only [Bool.not_eq_false] at he
    simp [he]

theorem update_vpc_tags_check (w : World) (v : VpcObj) (tags : Option Tags)
    (name : String) :
    (∃ b, update_vpc_tags w true v tags name =
        (.ok b, w, [ServiceCall.getTags v.id])) ∨
      (∃ e, update_vpc_tags w true v tags name =
        (.error e, w, [ServiceCall.getTags v.id])) := by
  unfold update_vpc_tags
  by_cases hg : ServiceCall.getTags v.id ∈ w.failing
  · right
    exact ⟨.remote (ServiceCall.getTags v.id), by simp [hg]⟩
  · left
    by_cases he : dictEq (dictUpdate (tags.getD []) "Name" name) (w.getTags v.id) = false
    · exact ⟨true, by simp [hg, he]⟩
    · simp only [Bool.not_eq_false] at he
      exact ⟨false, by simp [hg, he]⟩

theorem dnsStage_check (w : World) (v : VpcObj) (s hn : Bool) :
    dnsStage w true v s hn = (.ok (), w, []) := rfl

theorem dnsStage_real (w : World) (v : VpcObj) (s hn : Bool)
    (hf : ServiceCall.setDnsAttributes v.id s hn ∉ w.failing) :
    dnsStage w false v s hn = (.ok (), w, [ServiceCall.setDnsAttributes v.id s hn]) := by
  simp [dnsStage, hf]

theorem refetchStage_check (w : World) (v : VpcObj) :
    refetchStage w true v = (.ok v, w, []) := rfl

theorem refetchStage_real (w : World) (v u : VpcObj)
    (hf : ServiceCall.get v.id ∉ w.failing)
    (hfind : w.vpcs.find? (fun x => decide (x.id = v.id)) = some u) :
    refetchStage w false v = (.ok u, w, [ServiceCall.get v.id]) := by
  simp [refetchStage, hf, hfind]

theorem presentRest_check (d : DesiredState) (ch : Bool) (v : VpcObj) (w : World)
    (cs : List ServiceCall) :
    (presentRest d true ch v w cs).calls = cs ++ [ServiceCall.getTags v.id] ∧
      (presentRest d true ch v w cs).world = w := by
  unfold presentRest
  have hd : ∃ b, dhcpStage w true v d.dhcp_opts_id = (.ok b, w, []) := by
    cases d.dhcp_opts_id with
    | none => exact ⟨false, rfl⟩
    | some did => exact ⟨decide (v.dhcp_options_id ≠ did), update_dhcp_opts_check w v did⟩
  obtain ⟨b, hb⟩ := hd
  rw [hb]
  dsimp only
  rcases update_vpc_tags_check w v d.tags d.name with ⟨b2, h2⟩ | ⟨e2, h2⟩
  · rw [h2]
    dsimp only
    rw [dnsStage_check]
    dsimp only
    rw [refetchStage_check]
    simp
  · rw [h2]
    simp

/-- Sample fixtures used by the concrete witnesses below. -/
def sampleTags : Tags := [("env", "staging")]

def sampleDesired : DesiredState :=
  { name := "app-vpc", cidr_block := "10.0.0.0/16", tenancy := "default",
    dns_support := true, dns_hostnames := true, dhcp_opts_id := some "dopt-1",
    tags := some sampleTags, multi_ok := false }

def emptyWorld : World :=
  { vpcs := [], nextId := 0, defaultDhcpId := "dopt-0", failing := [] }

def sampleVpc : VpcObj :=
  { id := "vpc-a", cidr_block := "10.0.0.0/16", instance_tenancy := "default",
    dhcp_options_id := "dopt-1",
    tags := [("env", "staging"), ("Name", "app-vpc")] }

def worldOne : World :=
  { vpcs := [sampleVpc], nextId := 0, defaultDhcpId := "dopt-0", failing := [] }

def worldTwo : World :=
  { vpcs := [sampleVpc, { sampleVpc with id := "vpc-b" }], nextId := 0,
    defaultDhcpId := "dopt-0", failing := [] }

/-! ### The claims -/

/-- C2: with `dryRun=true`, neither `ensurePresent` nor `ensureAbsent` ever
invokes a mutating service method (`create`, `delete`, `setTags`,
`associateDhcpOptions`, `setDnsAttributes`); every call in the trace is a
pure lookup, i.e. `find` or `getTags`. -/
theorem C2_dry_run_only_lookups (d : DesiredState) (w : World) :
    ((ensurePresent d true w).calls.all
        (fun c => c.isLookup && !c.isMutating) = true) ∧
      ((ensureAbsent d true w).calls.all
        (fun c => c.isLookup && !c.isMutating) = true) := by
  have hfr := vpc_exists_frame w d.name d.cidr_block d.multi_ok
  rcases hE : vpc_exists w d.name d.cidr_block d.multi_ok with ⟨val, wx, csx⟩
  rw [hE] at hfr
  obtain ⟨hw1, hc1⟩ := hfr
  dsimp only at hw1 hc1
  rw [hw1, hc1] at hE
  constructor
  · unfold ensurePresent
    by_cases hv : (d.dns_hostnames && !d.dns_support) = true
    · simp [hv]
    · rw [Bool.not_eq_true] at hv
      rw [hv]
      rw [hE]
      cases val with
      | error e => simp [ServiceCall.isLookup, ServiceCall.isMutating]
      | ok vo =>
        cases vo with
        | none => simp [ServiceCall.isLookup, ServiceCall.isMutating]
        | some v =>
          obtain ⟨hcalls, -⟩ :=
            presentRest_check d false v w [ServiceCall.find d.name d.cidr_block]
          simp [hcalls, ServiceCall.isLookup, ServiceCall.isMutating]
  · unfold ensureAbsent
    by_cases hv : (d.dns_hostnames && !d.dns_support) = true
    · simp [hv]
    · rw [Bool.not_eq_true] at hv
      rw [hv]
      rw [hE]
      cases val with
      | error e => simp [ServiceCall.isLookup, ServiceCall.isMutating]
      | ok vo =>
        cases vo with
        | none => simp [ServiceCall.isLookup, ServiceCall.isMutating]
        | some v => simp [ServiceCall.isLookup, ServiceCall.isMutating]

/-- C3: a desired state with `dns_hostnames=true` and `dns_support=false`
makes both operations fail with the validation error before any service
call: the trace is empty and the world untouched. -/
theorem C3_validation_before_any_call (d : DesiredState) (cm : Bool) (w : World)
    (hh : d.dns_hostnames = true) (hs : d.dns_support = false) :
    ensurePresent d cm w = ⟨w, [], .error .validation⟩ ∧
      ensureAbsent d cm w = ⟨w, [], .error .validation⟩ := by
  unfold ensurePresent ensureAbsent
  simp [hh, hs]

theorem C3_witness :
    ensurePresent { sampleDesired with dns_support := false } true emptyWorld =
        ⟨emptyWorld, [], .error .validation⟩ ∧
      ensureAbsent { sampleDesired with dns_support := false } true emptyWorld =
        ⟨emptyWorld, [], .error .validation⟩ :=
  C3_validation_before_any_call _ true emptyWorld rfl rfl

/-- C8: in dry run, when the lookup reports no match, `ensurePresent`
returns `changed=true` with no resource immediately: the trace is exactly
the one `find` call, so no create, DHCP, tag, DNS or re-fetch step runs. -/
theorem C8_dry_run_not_found_early_exit (d : DesiredState) (w : World)
    (hv : (d.dns_hostnames && !d.dns_support) = false)
    (hf : ServiceCall.find d.name d.cidr_block ∉ w.failing)
    (he : w.findVpcs d.name d.cidr_block = [] ∨ d.multi_ok = true) :
    ensurePresent d true w =
      ⟨w, [ServiceCall.find d.name d.cidr_block], .ok (true, none)⟩ := by
  have hE : vpc_exists w d.name d.cidr_block d.multi_ok =
      (.ok none, w, [ServiceCall.find d.name d.cidr_block]) := by
    rcases he with he | he
    · exact vpc_exists_empty w _ _ _ hf he
    · rw [he]
      exact vpc_exists_multi_true w _ _ hf
  unfold ensurePresent
  rw [hv, hE]
  rfl

theorem C8_witness :
    ensurePresent sampleDesired true emptyWorld =
      ⟨emptyWorld, [ServiceCall.find "app-vpc" "10.0.0.0/16"], .ok (true, none)⟩ :=
  C8_dry_run_not_found_early_exit sampleDesired emptyWorld rfl
    (by decide) (Or.inl rfl)

/-- C10: with `allow_duplicates=true` the shared lookup reports not-found
unconditionally, so `ensureAbsent` (in either mode) returns
`changed=false` with no resource and its trace is just the `find` call —
in particular `delete` is never called, however many VPCs match. -/
theorem C10_multi_ok_absent_noop (d : DesiredState) (cm : Bool) (w : World)
    (hm : d.multi_ok = true)
    (hv : (d.dns_hostnames && !d.dns_support) = false)
    (hf : ServiceCall.find d.name d.cidr_block ∉ w.failing) :
    ensureAbsent d cm w =
      ⟨w, [ServiceCall.find d.name d.cidr_block], .ok (false, none)⟩ := by
  unfold ensureAbsent
  rw [hv, hm, vpc_exists_multi_true w _ _ hf]
  rfl

theorem C10_witness :
    ensureAbsent { sampleDesired with multi_ok := true } false worldTwo =
      ⟨worldTwo, [ServiceCall.find "app-vpc" "10.0.0.0/16"], .ok (false, none)⟩ :=
  C10_multi_ok_absent_noop _ false worldTwo rfl rfl (by decide)

/-- C4: with `allow_duplicates=false`, more than one lookup match makes
both operations stop with the ambiguity error after only the `find` call;
exactly one match binds the operation to that resource; zero matches
proceed as not found. -/
theorem C4_ambiguity_hard_stop (d : DesiredState) (cm : Bool) (w : World)
    (hm : d.multi_ok = false)
    (hv : (d.dns_hostnames && !d.dns_support) = false)
    (hf : ServiceCall.find d.name d.cidr_block ∉ w.failing) :
    (∀ a b t, w.findVpcs d.name d.cidr_block = a :: b :: t →
        ensurePresent d cm w =
            ⟨w, [ServiceCall.find d.name d.cidr_block],
              .error (.ambiguous (a :: b :: t).length)⟩ ∧
          ensureAbsent d cm w =
            ⟨w, [ServiceCall.find d.name d.cidr_block],
              .error (.ambiguous (a :: b :: t).length)⟩) ∧
      (∀ v, w.findVpcs d.name d.cidr_block = [v] →
        (vpc_exists w d.name d.cidr_block d.multi_ok).1 = .ok (some v)) ∧
      (w.findVpcs d.name d.cidr_block = [] →
        (vpc_exists w d.name d.cidr_block d.multi_ok).1 = .ok none) := by
  refine ⟨?_, ?_, ?_⟩
  · intro a b t hmany
    have hE := vpc_exists_many w d.name d.cidr_block a b t hf hmany
    constructor
    · unfold ensurePresent
      rw [hv, hm, hE]
      rfl
    · unfold ensureAbsent
      rw [hv, hm, hE]
      rfl
  · intro v h1
    rw [hm, vpc_exists_one w d.name d.cidr_block v hf h1]
  · intro h0
    rw [hm, vpc_exists_empty w d.name d.cidr_block false hf h0]

theorem C4_witness :
    (∀ a b t, worldTwo.findVpcs sampleDesired.name sampleDesired.cidr_block = a :: b :: t →
        ensurePresent sampleDesired false worldTwo =
            ⟨worldTwo, [ServiceCall.find sampleDesired.name sampleDesired.cidr_block],
              .error (.ambiguous (a :: b :: t).length)⟩ ∧
          ensureAbsent sampleDesired false worldTwo =
            ⟨worldTwo, [ServiceCall.find sampleDesired.name sampleDesired.cidr_block],
              .error (.ambiguous (a :: b :: t).length)⟩) ∧
      (∀ v, worldTwo.findVpcs sampleDesired.name sampleDesired.cidr_block = [v] →
        (vpc_exists worldTwo sampleDesired.name sampleDesired.cidr_block
            sampleDesired.multi_ok).1 = .ok (some v)) ∧
      (worldTwo.findVpcs sampleDesired.name sampleDesired.cidr_block = [] →
        (vpc_exists worldTwo sampleDesired.name sampleDesired.cidr_block
            sampleDesired.multi_ok).1 = .ok none) :=
  C4_ambiguity_hard_stop sampleDesired false worldTwo rfl rfl (by decide)

/-- C6: with `desired.dhcp_options_id` set, the DHCP step reports changed
exactly when the bound resource's current association differs, issues the
`associateDhcpOptions` call exactly when they differ outside dry run, and
— the comparison preceding the dry-run gate — reports the same flag in
dry-run and real mode. -/
theorem C6_dhcp_diff_before_gate (w : World) (cm : Bool) (v : VpcObj) (did : String)
    (hf : ServiceCall.associateDhcpOptions did v.id ∉ w.failing) :
    dhcpStage w cm v (some did) =
        (.ok (decide (v.dhcp_options_id ≠ did)),
         if v.dhcp_options_id ≠ did ∧ cm = false then w.associateDhcp v.id did else w,
         if v.dhcp_options_id ≠ did ∧ cm = false
           then [ServiceCall.associateDhcpOptions did v.id] else []) ∧
      (dhcpStage w true v (some did)).1 = (dhcpStage w false v (some did)).1 := by
  constructor
  · rw [dhcpStage_some]
    exact update_dhcp_opts_eq w cm v did hf
  · rw [dhcpStage_some, dhcpStage_some, update_dhcp_opts_check,
      update_dhcp_opts_eq w false v did hf]

theorem C6_witness :
    dhcpStage worldOne false sampleVpc (some "dopt-2") =
        (.ok (decide (sampleVpc.dhcp_options_id ≠ "dopt-2")),
         if sampleVpc.dhcp_options_id ≠ "dopt-2" ∧ false = false
           then worldOne.associateDhcp sampleVpc.id "dopt-2" else worldOne,
         if sampleVpc.dhcp_options_id ≠ "dopt-2" ∧ false = false
           then [ServiceCall.associateDhcpOptions "dopt-2" sampleVpc.id] else []) ∧
      (dhcpStage worldOne true sampleVpc (some "dopt-2")).1 =
        (dhcpStage worldOne false sampleVpc (some "dopt-2")).1 :=
  C6_dhcp_diff_before_gate worldOne false sampleVpc "dopt-2" (by decide)

/-- C5: the tag step's effective mapping is `desired.tags` (empty when
absent) with `Name := desired.name` overriding any same-keyed entry; the
step reports changed exactly when the effective mapping differs from the
provider's current tags as a set of key/value pairs, and issues `setTags`
with the effective mapping exactly when they differ outside dry run. -/
theorem C5_effective_tags (w : World) (cm : Bool) (v : VpcObj)
    (tags : Option Tags) (name : String)
    (hg : ServiceCall.getTags v.id ∉ w.failing)
    (hs : ServiceCall.setTags v.id (dictUpdate (tags.getD []) "Name" name) ∉ w.failing)
    (hkt : keysNodup (tags.getD []))
    (hkc : keysNodup (w.getTags v.id)) :
    (dictLookup (dictUpdate (tags.getD []) "Name" name) "Name" = some name ∧
      ∀ k, k ≠ "Name" →
        dictLookup (dictUpdate (tags.getD []) "Name" name) k =
          dictLookup (tags.getD []) k) ∧
      ((update_vpc_tags w cm v tags name).1 = .ok true ↔
        ¬(∀ p, p ∈ dictUpdate (tags.getD []) "Name" name ↔ p ∈ w.getTags v.id)) ∧
      (ServiceCall.setTags v.id (dictUpdate (tags.getD []) "Name" name) ∈
          (update_vpc_tags w cm v tags name).2.2 ↔
        (¬(∀ p, p ∈ dictUpdate (tags.getD []) "Name" name ↔ p ∈ w.getTags v.id) ∧
          cm = false)) := by
  have hke : keysNodup (dictUpdate (tags.getD []) "Name" name) :=
    keysNodup_dictUpdate _ _ _ hkt
  have hiff :
      dictEq (dictUpdate (tags.getD []) "Name" name) (w.getTags v.id) = true ↔
        (∀ p, p ∈ dictUpdate (tags.getD []) "Name" name ↔ p ∈ w.getTags v.id) :=
    dictEq_true_iff _ _ hke hkc
  refine ⟨⟨dictLookup_dictUpdate_self _ _ _,
    fun k hk => dictLookup_dictUpdate_ne _ _ _ _ hk⟩, ?_, ?_⟩
  · rw [update_vpc_tags_eq w cm v tags name hg hs]
    dsimp only
    constructor
    · intro h
      have hb := Except.ok.inj h
      intro hall
      rw [hiff.mpr hall] at hb
      exact absurd hb (by decide)
    · intro hne
      have hbe : dictEq (dictUpdate (tags.getD []) "Name" name) (w.getTags v.id) = false := by
        cases hq : dictEq (dictUpdate (tags.getD []) "Name" name) (w.getTags v.id)
        · rfl
        · exact absurd (hiff.mp hq) hne
      rw [hbe]
      rfl
  · rw [update_vpc_tags_eq w cm v tags name hg hs]
    dsimp only
    by_cases hbe : dictEq (dictUpdate (tags.getD []) "Name" name) (w.getTags v.id) = true
    · have hcond : ¬(dictEq (dictUpdate (tags.getD []) "Name" name) (w.getTags v.id) = false ∧
          cm = false) := by
        rintro ⟨h1, -⟩
        rw [hbe] at h1
        cases h1
      rw [if_neg hcond]
      constructor
      · intro hmem
        simp at hmem
      · rintro ⟨hne, -⟩
        exact absurd (hiff.mp hbe) hne
    · rw [Bool.not_eq_true] at hbe
      have hne : ¬(∀ p, p ∈ dictUpdate (tags.getD []) "Name" name ↔ p ∈ w.getTags v.id) := by
        intro hall
        rw [hiff.mpr hall] at hbe
        exact absurd hbe (by decide)
      cases cm
      · rw [if_pos ⟨hbe, rfl⟩]
        constructor
        · intro hmem
          exact ⟨hne, rfl⟩
        · intro hmem
          simp
      · have hcond : ¬(dictEq (dictUpdate (tags.getD []) "Name" name) (w.getTags v.id) = false ∧
            true = false) := by
          rintro ⟨-, h⟩
          cases h
        rw [if_neg hcond]
        constructor
        · intro hmem
          simp at hmem
        · rintro ⟨-, h⟩
          cases h

/-! ### Lemmas for the idempotence analysis -/

/-- The lookup filter of `vpc_exists` as a predicate on one VPC. -/
def matchP (d : DesiredState) (v : VpcObj) : Bool :=
  decide (dictLookup v.tags "Name" = some d.name ∧ v.cidr_block = d.cidr_block)

theorem findVpcs_eq_filter (w : World) (d : DesiredState) :
    w.findVpcs d.name d.cidr_block = w.vpcs.filter (matchP d) := rfl

theorem map_eq_self (l : List VpcObj) (g : VpcObj → VpcObj)
    (h : ∀ x ∈ l, g x = x) : l.map g = l := by
  induction l with
  | nil => rfl
  | cons a t ih =>
    rw [List.map_cons, h a (List.mem_cons_self a t),
      ih (fun x hx => h x (List.mem_cons_of_mem a hx))]

theorem filter_all_false (l : List VpcObj) (p : VpcObj → Bool)
    (h : ∀ x ∈ l, p x = false) : l.filter p = [] := by
  induction l with
  | nil => rfl
  | cons a t ih =>
    rw [List.filter_cons, h a (List.mem_cons_self a t)]
    exact ih (fun x hx => h x (List.mem_cons_of_mem a hx))

theorem of_filter_nil (l : List VpcObj) (p : VpcObj → Bool)
    (h : l.filter p = []) : ∀ x ∈ l, p x = false := by
  induction l with
  | nil => intro x hx; cases hx
  | cons a t ih =>
    intro x hx
    rw [List.filter_cons] at h
    by_cases hp : p a = true
    · rw [if_pos hp] at h
      cases h
    · rw [Bool.not_eq_true] at hp
      rw [hp] at h
      simp only [Bool.false_eq_true, if_false] at h
      rcases List.mem_cons.mp hx with rfl | hxt
      · exact hp
      · exact ih h x hxt

theorem of_filter_singleton (l : List VpcObj) (p : VpcObj → Bool) (m : VpcObj)
    (h : l.filter p = [m]) :
    m ∈ l ∧ p m = true ∧ ∀ u ∈ l, u ≠ m → p u = false := by
  induction l with
  | nil => cases h
  | cons a t ih =>
    rw [List.filter_cons] at h
    by_cases hp : p a = true
    · rw [if_pos hp] at h
      have ham : a = m := (List.cons.inj h).1
      have htnil : t.filter p = [] := (List.cons.inj h).2
      refine ⟨List.mem_cons.mpr (Or.inl ham.symm), ham ▸ hp, ?_⟩
      intro u hu hum
      rcases List.mem_cons.mp hu with rfl | hut
      · exact absurd ham hum
      · exact of_filter_nil t p htnil u hut
    · rw [Bool.not_eq_true] at hp
      rw [hp] at h
      simp only [Bool.false_eq_true, if_false] at h
      obtain ⟨hm, hpm, hoth⟩ := ih h
      refine ⟨List.mem_cons_of_mem a hm, hpm, ?_⟩
      intro u hu hum
      rcases List.mem_cons.mp hu with rfl | hut
      · exact hp
      · exact hoth u hut hum

theorem filter_pointUpd (l : List VpcObj) (v' : VpcObj) (f : VpcObj → VpcObj)
    (p : VpcObj → Bool)
    (hn : (l.map VpcObj.id).Nodup) (hv : v' ∈ l)
    (hothers : ∀ u ∈ l, u ≠ v' → p u = false) :
    (l.map (fun x => if x.id = v'.id then f x else x)).filter p =
      if p (f v') then [f v'] else [] := by
  induction l with
  | nil => cases hv
  | cons a t ih =>
    simp only [List.map_cons, List.nodup_cons] at hn
    rcases List.mem_cons.mp hv with rfl | hvt
    · have hgt : ∀ x ∈ t, (if x.id = v'.id then f x else x) = x := by
        intro x hx
        exact if_neg (fun he => hn.1 (List.mem_map.mpr ⟨x, hx, he⟩))
      have htf : ∀ x ∈ t, p x = false := by
        intro x hx
        refine hothers x (List.mem_cons_of_mem v' hx) ?_
        intro he
        exact hn.1 (List.mem_map.mpr ⟨x, hx, congrArg VpcObj.id he⟩)
      rw [List.map_cons, if_pos rfl, map_eq_self t _ hgt, List.filter_cons]
      by_cases hq : p (f v') = true
      · rw [if_pos hq, if_pos hq, filter_all_false t p htf]
      · rw [Bool.not_eq_true] at hq
        rw [hq]
        simp only [Bool.false_eq_true, if_false]
        exact filter_all_false t p htf
    · have hane : a.id ≠ v'.id := by
        intro he
        exact hn.1 (he ▸ List.mem_map.mpr ⟨v', hvt, rfl⟩)
      have hanev : a ≠ v' := fun he => hane (congrArg VpcObj.id he)
      have hpa : p a = false := hothers a (List.mem_cons_self a t) hanev
      rw [List.map_cons, if_neg hane, List.filter_cons, hpa]
      simp only [Bool.false_eq_true, if_false]
      exact ih hn.2 hvt
        (fun u hu hum => hothers u (List.mem_cons_of_mem a hu) hum)

theorem find?_pointUpd (l : List VpcObj) (v' : VpcObj) (f : VpcObj → VpcObj)
    (hn : (l.map VpcObj.id).Nodup) (hv : v' ∈ l)
    (hfid : ∀ x, (f x).id = x.id) :
    (l.map (fun x => if x.id = v'.id then f x else x)).find?
      (fun x => decide (x.id = v'.id)) = some (f v') := by
  have hstable : ∀ x ∈ l,
      decide ((if x.id = v'.id then f x else x).id = v'.id) = decide (x.id = v'.id) := by
    intro x hx
    by_cases he : x.id = v'.id
    · rw [if_pos he, hfid x]
    · rw [if_neg he]
  rw [find?_map_stable l (fun y => decide (y.id = v'.id))
      (fun x => if x.id = v'.id then f x else x) hstable,
    find?_id_self l hn v' hv]
  simp

theorem map_id_pointUpd (l : List VpcObj) (v' : VpcObj) (f : VpcObj → VpcObj)
    (hfid : ∀ x, (f x).id = x.id) :
    (l.map (fun x => if x.id = v'.id then f x else x)).map VpcObj.id =
      l.map VpcObj.id := by
  refine map_id_stable l _ ?_
  intro x hx
  by_cases he : x.id = v'.id
  · rw [if_pos he, hfid x]
  · rw [if_neg he]

theorem post_core (d : DesiredState) (wB : World) (vb : VpcObj)
    (fAll : VpcObj → VpcObj)
    (hnB : (wB.vpcs.map VpcObj.id).Nodup) (hvB : vb ∈ wB.vpcs)
    (hothers : ∀ u ∈ wB.vpcs, u ≠ vb → matchP d u = false)
    (hfid : ∀ x, (fAll x).id = x.id)
    (hmatch : matchP d (fAll vb) = true) :
    ((wB.vpcs.map (fun x => if x.id = vb.id then fAll x else x)).filter (matchP d) =
        [fAll vb]) ∧
      (((wB.vpcs.map (fun x => if x.id = vb.id then fAll x else x)).map
        VpcObj.id).Nodup) ∧
      ((wB.vpcs.map (fun x => if x.id = vb.id then fAll x else x)).find?
          (fun x => decide (x.id = vb.id)) = some (fAll vb)) := by
  refine ⟨?_, ?_, ?_⟩
  · rw [filter_pointUpd wB.vpcs vb fAll (matchP d) hnB hvB hothers, if_pos hmatch]
  · rw [map_id_pointUpd wB.vpcs vb fAll hfid]
    exact hnB
  · exact find?_pointUpd wB.vpcs vb fAll hnB hvB hfid

theorem map_congr_fn (l : List VpcObj) (g h : VpcObj → VpcObj)
    (he : ∀ x ∈ l, g x = h x) : l.map g = l.map h := by
  induction l with
  | nil => rfl
  | cons a t ih =>
    rw [List.map_cons, List.map_cons, he a (List.mem_cons_self a t),
      ih (fun x hx => he x (List.mem_cons_of_mem a hx))]

theorem world_pointUpd_id (w : World) (i : String) :
    { w with vpcs := w.vpcs.map (fun x => if x.id = i then x else x) } = w := by
  have h : w.vpcs.map (fun x => if x.id = i then x else x) = w.vpcs :=
    map_eq_self _ _ (fun x _ => ite_self x)
  rw [h]

/-- A second `ensurePresent` against a world already agreeing with the
desired state changes nothing: one match is found and bound, DHCP and tags
compare equal, the DNS attributes are rewritten, and the run reports
`changed=false`. -/
theorem ensurePresent_no_change (d : DesiredState) (w1 : World) (v1 : VpcObj)
    (hv : (d.dns_hostnames && !d.dns_support) = false)
    (hm : d.multi_ok = false)
    (hf1 : w1.failing = [])
    (hfind : w1.findVpcs d.name d.cidr_block = [v1])
    (hn1 : (w1.vpcs.map VpcObj.id).Nodup)
    (hdh : ∀ did, d.dhcp_opts_id = some did → v1.dhcp_options_id = did)
    (htag : dictEq (dictUpdate (d.tags.getD []) "Name" d.name) v1.tags = true) :
    ensurePresent d false w1 =
      ⟨w1,
        [ServiceCall.find d.name d.cidr_block, ServiceCall.getTags v1.id,
         ServiceCall.setDnsAttributes v1.id d.dns_support d.dns_hostnames,
         ServiceCall.get v1.id],
        .ok (false, some v1)⟩ := by
  have hnf : ∀ c : ServiceCall, c ∉ w1.failing := by
    rw [hf1]
    exact fun c => List.not_mem_nil c
  have hv1mem : v1 ∈ w1.vpcs := by
    have hmem : v1 ∈ w1.findVpcs d.name d.cidr_block := by
      rw [hfind]
      exact List.mem_cons_self v1 []
    exact List.mem_of_mem_filter hmem
  have hfindq : w1.vpcs.find? (fun x => decide (x.id = v1.id)) = some v1 :=
    find?_id_self w1.vpcs hn1 v1 hv1mem
  have hget : w1.getTags v1.id = v1.tags := by
    unfold World.getTags
    rw [hfindq]
  have hdhcp : dhcpStage w1 false v1 d.dhcp_opts_id = (.ok false, w1, []) := by
    cases hdo : d.dhcp_opts_id with
    | none => rfl
    | some did =>
      rw [dhcpStage_some, update_dhcp_opts_eq w1 false v1 did (hnf _)]
      have heq : v1.dhcp_options_id = did := hdh did hdo
      have hcond : ¬(v1.dhcp_options_id ≠ did ∧ (false : Bool) = false) :=
        fun hc => hc.1 heq
      rw [if_neg hcond, if_neg hcond]
      simp [heq]
  have htags : update_vpc_tags w1 false v1 d.tags d.name =
      (.ok false, w1, [ServiceCall.getTags v1.id]) := by
    rw [update_vpc_tags_eq w1 false v1 d.tags d.name (hnf _) (hnf _), hget, htag]
    have hcond : ¬((true : Bool) = false ∧ (false : Bool) = false) :=
      fun hc => by cases hc.1
    rw [if_neg hcond, if_neg hcond]
    rfl
  unfold ensurePresent
  rw [hv, hm, vpc_exists_one w1 d.name d.cidr_block v1 (hnf _) hfind]
  dsimp only
  unfold presentRest
  rw [hdhcp]
  dsimp only
  rw [htags]
  dsimp only
  rw [dnsStage_real w1 v1 d.dns_support d.dns_hostnames (hnf _)]
  dsimp only
  rw [refetchStage_real w1 v1 v1 (hnf _) hfindq]
  simp

theorem dhcp_phase (d : DesiredState) (wB : World) (vb : VpcObj)
    (hfB : wB.failing = []) :
    ∃ (fD : VpcObj → VpcObj) (chD : Bool) (csD : List ServiceCall),
      (∀ x, (fD x).id = x.id) ∧ (∀ x, (fD x).tags = x.tags) ∧
      (∀ x, (fD x).cidr_block = x.cidr_block) ∧
      (∀ did, d.dhcp_opts_id = some did → (fD vb).dhcp_options_id = did) ∧
      dhcpStage wB false vb d.dhcp_opts_id =
        (.ok chD,
         { wB with vpcs := wB.vpcs.map (fun x => if x.id = vb.id then fD x else x) },
         csD) := by
  have hnf : ∀ c : ServiceCall, c ∉ wB.failing := by
    rw [hfB]
    exact fun c => List.not_mem_nil c
  cases hdo : d.dhcp_opts_id with
  | none =>
    refine ⟨fun x => x, false, [], fun x => rfl, fun x => rfl, fun x => rfl, ?_, ?_⟩
    · intro did hdid
      exact Option.noConfusion hdid
    · rw [world_pointUpd_id wB vb.id]
      rfl
  | some did =>
    by_cases hne : vb.dhcp_options_id = did
    · refine ⟨fun x => x, false, [], fun x => rfl, fun x => rfl, fun x => rfl, ?_, ?_⟩
      · intro did2 h2
        cases h2
        exact hne
      · rw [world_pointUpd_id wB vb.id, dhcpStage_some,
          update_dhcp_opts_eq wB false vb did (hnf _)]
        have hcond : ¬(vb.dhcp_options_id ≠ did ∧ (false : Bool) = false) :=
          fun hc => hc.1 hne
        rw [if_neg hcond, if_neg hcond]
        simp [hne]
    · refine ⟨fun x => { x with dhcp_options_id := did }, true,
        [ServiceCall.associateDhcpOptions did vb.id],
        fun x => rfl, fun x => rfl, fun x => rfl, ?_, ?_⟩
      · intro did2 h2
        cases h2
        rfl
      · rw [dhcpStage_some, update_dhcp_opts_eq wB false vb did (hnf _),
          if_pos ⟨hne, rfl⟩, if_pos ⟨hne, rfl⟩]
        have hd : decide (vb.dhcp_options_id ≠ did) = true := by
          simp [hne]
        rw [hd]
        rfl

theorem tags_phase (d : DesiredState) (wC : World) (vb vbMid : VpcObj)
    (hfC : wC.failing = [])
    (hcur : wC.getTags vb.id = vbMid.tags)
    (hkt : keysNodup (d.tags.getD [])) :
    ∃ (fT : VpcObj → VpcObj) (chT : Bool) (csT : List ServiceCall),
      (∀ x, (fT x).id = x.id) ∧ (∀ x, (fT x).cidr_block = x.cidr_block) ∧
      (∀ x, (fT x).dhcp_options_id = x.dhcp_options_id) ∧
      dictEq (dictUpdate (d.tags.getD []) "Name" d.name) ((fT vbMid).tags) = true ∧
      update_vpc_tags wC false vb d.tags d.name =
        (.ok chT,
         { wC with vpcs := wC.vpcs.map (fun x => if x.id = vb.id then fT x else x) },
         csT) := by
  have hnf : ∀ c : ServiceCall, c ∉ wC.failing := by
    rw [hfC]
    exact fun c => List.not_mem_nil c
  by_cases hq : dictEq (dictUpdate (d.tags.getD []) "Name" d.name) vbMid.tags = true
  · refine ⟨fun x => x, false, [ServiceCall.getTags vb.id],
      fun x => rfl, fun x => rfl, fun x => rfl, hq, ?_⟩
    rw [world_pointUpd_id wC vb.id,
      update_vpc_tags_eq wC false vb d.tags d.name (hnf _) (hnf _), hcur, hq]
    have hcond : ¬((true : Bool) = false ∧ (false : Bool) = false) :=
      fun hc => by cases hc.1
    rw [if_neg hcond, if_neg hcond]
    rfl
  · rw [Bool.not_eq_true] at hq
    refine ⟨fun x => { x with tags := dictUpdate (d.tags.getD []) "Name" d.name },
      true,
      [ServiceCall.getTags vb.id,
       ServiceCall.setTags vb.id (dictUpdate (d.tags.getD []) "Name" d.name)],
      fun x => rfl, fun x => rfl, fun x => rfl,
      dictEq_refl _ (keysNodup_dictUpdate _ _ _ hkt), ?_⟩
    rw [update_vpc_tags_eq wC false vb d.tags d.name (hnf _) (hnf _), hcur, hq,
      if_pos ⟨rfl, rfl⟩, if_pos ⟨rfl, rfl⟩]
    rfl

/-- After the mutation phases of a real (non-dry) `ensurePresent` run on a
bound resource, the run succeeds and the final world holds exactly one
lookup match: the bound resource, now agreeing with the desired DHCP
association and tags. -/
theorem presentRest_post (d : DesiredState) (ch0 : Bool) (vb : VpcObj)
    (wB : World) (cs : List ServiceCall)
    (hfB : wB.failing = [])
    (hnB : (wB.vpcs.map VpcObj.id).Nodup)
    (hvB : vb ∈ wB.vpcs)
    (hothers : ∀ u ∈ wB.vpcs, u ≠ vb → matchP d u = false)
    (hcidr : vb.cidr_block = d.cidr_block)
    (hkt : keysNodup (d.tags.getD [])) :
    ∃ (v1 : VpcObj) (ch' : Bool) (w1 : World) (tr : List ServiceCall),
      presentRest d false ch0 vb wB cs = ⟨w1, tr, .ok (ch', some v1)⟩ ∧
        w1.failing = [] ∧
        w1.findVpcs d.name d.cidr_block = [v1] ∧
        ((w1.vpcs.map VpcObj.id).Nodup) ∧
        (∀ did, d.dhcp_opts_id = some did → v1.dhcp_options_id = did) ∧
        dictEq (dictUpdate (d.tags.getD []) "Name" d.name) v1.tags = true := by
  obtain ⟨fD, chD, csD, hfDid, hfDtags, hfDcidr, hfDdhcp, hstep1⟩ :=
    dhcp_phase d wB vb hfB
  set wC : World :=
    { wB with vpcs := wB.vpcs.map (fun x => if x.id = vb.id then fD x else x) }
    with hwC
  have hfC : wC.failing = [] := hfB
  have hfindC : wC.vpcs.find? (fun x => decide (x.id = vb.id)) = some (fD vb) :=
    find?_pointUpd wB.vpcs vb fD hnB hvB hfDid
  have hcur : wC.getTags vb.id = (fD vb).tags := by
    unfold World.getTags
    rw [hfindC]
  obtain ⟨fT, chT, csT, hfTid, hfTcidr, hfTdhcp, htagf, hstep2⟩ :=
    tags_phase d wC vb (fD vb) hfC hcur hkt
  set fAll : VpcObj → VpcObj := fun x => fT (fD x) with hfAll
  have hfAllid : ∀ x, (fAll x).id = x.id := fun x => (hfTid (fD x)).trans (hfDid x)
  have hcomp : wC.vpcs.map (fun x => if x.id = vb.id then fT x else x) =
      wB.vpcs.map (fun x => if x.id = vb.id then fAll x else x) := by
    rw [hwC]
    dsimp only
    rw [List.map_map]
    refine map_congr_fn wB.vpcs _ _ ?_
    intro x hx
    by_cases he : x.id = vb.id
    · simp only [Function.comp_apply, if_pos he, if_pos ((hfDid x).trans he)]
    · simp only [Function.comp_apply, if_neg he]
  set wD : World :=
    { wC with vpcs := wC.vpcs.map (fun x => if x.id = vb.id then fT x else x) }
    with hwD
  have hfDfail : wD.failing = [] := hfB
  have hwDvpcs : wD.vpcs = wB.vpcs.map (fun x => if x.id = vb.id then fAll x else x) :=
    hcomp
  have hv1tags : dictEq (dictUpdate (d.tags.getD []) "Name" d.name)
      ((fAll vb).tags) = true := htagf
  have hv1cidr : (fAll vb).cidr_block = d.cidr_block :=
    (hfTcidr (fD vb)).trans ((hfDcidr vb).trans hcidr)
  have hv1dhcp : ∀ did, d.dhcp_opts_id = some did →
      (fAll vb).dhcp_options_id = did :=
    fun did hdid => (hfTdhcp (fD vb)).trans (hfDdhcp did hdid)
  have hmatch : matchP d (fAll vb) = true := by
    unfold matchP
    rw [decide_eq_true_eq]
    exact ⟨dictEq_lookup_of_mem _ _ "Name" d.name hv1tags
      (mem_dictUpdate_self _ _ _), hv1cidr⟩
  have hfilter : wD.vpcs.filter (matchP d) = [fAll vb] := by
    rw [hwDvpcs, filter_pointUpd wB.vpcs vb fAll (matchP d) hnB hvB hothers,
      if_pos hmatch]
  have hnD : (wD.vpcs.map VpcObj.id).Nodup := by
    rw [hwDvpcs, map_id_pointUpd wB.vpcs vb fAll hfAllid]
    exact hnB
  have hfindD : wD.vpcs.find? (fun x => decide (x.id = vb.id)) = some (fAll vb) := by
    rw [hwDvpcs]
    exact find?_pointUpd wB.vpcs vb fAll hnB hvB hfAllid
  have hnfD : ∀ c : ServiceCall, c ∉ wD.failing := by
    rw [hfDfail]
    exact fun c => List.not_mem_nil c
  refine ⟨fAll vb, ch0 || chD || chT, wD,
    cs ++ csD ++ csT ++
      [ServiceCall.setDnsAttributes vb.id d.dns_support d.dns_hostnames] ++
      [ServiceCall.get vb.id],
    ?_, hfDfail, ?_, hnD, hv1dhcp, hv1tags⟩
  · unfold presentRest
    rw [hstep1]
    dsimp only
    rw [hstep2]
    dsimp only
    rw [dnsStage_real wD vb d.dns_support d.dns_hostnames (hnfD _)]
    dsimp only
    rw [refetchStage_real wD vb (fAll vb) (hnfD _) hfindD]
  · rw [findVpcs_eq_filter]
    exact hfilter

/-- C1 (amended): with `allow_duplicates=false`, a remote service that
raises no errors, well-formed remote ids and duplicate-free desired tag
keys, a successful real `ensurePresent` followed by a second identical
real run against the resulting remote state (no external drift) finds
exactly one lookup match — the reconciled resource — and returns
`changed=false` with that resource. -/
theorem C1_second_run_unchanged (d : DesiredState) (w : World) (ch : Bool)
    (v1 : VpcObj)
    (hm : d.multi_ok = false)
    (hkt : keysNodup (d.tags.getD []))
    (hw : w.wf)
    (hf : w.failing = [])
    (h1 : (ensurePresent d false w).outcome = .ok (ch, some v1)) :
    (ensurePresent d false w).world.findVpcs d.name d.cidr_block = [v1] ∧
      (ensurePresent d false (ensurePresent d false w).world).outcome =
        .ok (false, some v1) := by
  have hw' := hw
  unfold World.wf at hw'
  obtain ⟨hwn, hwfresh⟩ := hw'
  have hnf : ∀ c : ServiceCall, c ∉ w.failing := by
    rw [hf]
    exact fun c => List.not_mem_nil c
  by_cases hvb : (d.dns_hostnames && !d.dns_support) = true
  · exfalso
    unfold ensurePresent at h1
    rw [if_pos hvb] at h1
    simp at h1
  rw [Bool.not_eq_true] at hvb
  cases hms : w.findVpcs d.name d.cidr_block with
  | nil =>
    have hE := vpc_exists_empty w d.name d.cidr_block false (hnf _) hms
    have hcr := createStep_ok w d.cidr_block d.tenancy (hnf _)
    set v0 : VpcObj :=
      { id := "vpc-" ++ toString w.nextId, cidr_block := d.cidr_block,
        instance_tenancy := d.tenancy, dhcp_options_id := w.defaultDhcpId,
        tags := [] } with hv0
    set wB : World := { w with vpcs := w.vpcs ++ [v0], nextId := w.nextId + 1 }
      with hwB
    have hfB : wB.failing = [] := hf
    have hnB : (wB.vpcs.map VpcObj.id).Nodup := by
      rw [hwB]
      dsimp only
      rw [List.map_append, List.nodup_append]
      refine ⟨hwn, by simp, ?_⟩
      intro x hx hx2
      obtain ⟨u, hu, hux⟩ := List.mem_map.mp hx
      simp only [List.map_cons, List.map_nil, List.mem_singleton] at hx2
      refine hwfresh u hu ?_
      rw [hux, hx2]
    have hvB : v0 ∈ wB.vpcs := by
      rw [hwB]
      dsimp only
      exact List.mem_append_right _ (List.mem_cons_self _ _)
    have hothers : ∀ u ∈ wB.vpcs, u ≠ v0 → matchP d u = false := by
      rw [hwB]
      dsimp only
      intro u hu hune
      rcases List.mem_append.mp hu with hu | hu
      · have hnil : w.vpcs.filter (matchP d) = [] := by
          rw [← findVpcs_eq_filter]
          exact hms
        exact of_filter_nil w.vpcs (matchP d) hnil u hu
      · exact absurd (List.mem_singleton.mp hu) hune
    obtain ⟨v1', ch', w1, tr, hrun, hfail1, hfind1, hn1, hdh1, htag1⟩ :=
      presentRest_post d true v0 wB
        ([ServiceCall.find d.name d.cidr_block] ++
          [ServiceCall.create d.cidr_block d.tenancy])
        hfB hnB hvB hothers (by rw [hv0]) hkt
    have hrunall : ensurePresent d false w = ⟨w1, tr, .ok (ch', some v1')⟩ := by
      unfold ensurePresent
      rw [hvb, hm, hE]
      simp only [Bool.false_eq_true, if_false]
      rw [hcr]
      exact hrun
    rw [hrunall] at h1
    dsimp only at h1
    injection h1 with h1
    injection h1 with hch hvv
    injection hvv with hvv
    subst hvv
    constructor
    · rw [hrunall]
      exact hfind1
    · rw [hrunall]
      dsimp only
      rw [ensurePresent_no_change d w1 v1' hvb hm hfail1 hfind1 hn1 hdh1 htag1]
  | cons m t =>
    cases t with
    | nil =>
      have hE := vpc_exists_one w d.name d.cidr_block m (hnf _) hms
      have hsing := of_filter_singleton w.vpcs (matchP d) m
        (by rw [← findVpcs_eq_filter]; exact hms)
      have hmcidr : m.cidr_block = d.cidr_block := by
        have hpm := hsing.2.1
        unfold matchP at hpm
        rw [decide_eq_true_eq] at hpm
        exact hpm.2
      obtain ⟨v1', ch', w1, tr, hrun, hfail1, hfind1, hn1, hdh1, htag1⟩ :=
        presentRest_post d false m w [ServiceCall.find d.name d.cidr_block]
          hf hwn hsing.1 hsing.2.2 hmcidr hkt
      have hrunall : ensurePresent d false w = ⟨w1, tr, .ok (ch', some v1')⟩ := by
        unfold ensurePresent
        rw [hvb, hm, hE]
        simp only [Bool.false_eq_true, if_false]
        exact hrun
      rw [hrunall] at h1
      dsimp only at h1
      injection h1 with h1
      injection h1 with hch hvv
      injection hvv with hvv
      subst hvv
      constructor
      · rw [hrunall]
        exact hfind1
      · rw [hrunall]
        dsimp only
        rw [ensurePresent_no_change d w1 v1' hvb hm hfail1 hfind1 hn1 hdh1 htag1]
    | cons b t2 =>
      exfalso
      have hE := vpc_exists_many w d.name d.cidr_block m b t2 (hnf _) hms
      unfold ensurePresent at h1
      rw [hvb, hm, hE] at h1
      simp at h1

/-- The changed flag a run reports on success; `none` when it failed. -/
def RunResult.changedFlag (r : RunResult) : Option Bool :=
  match r.outcome with
  | .ok (b, _) => some b
  | .error _ => none

/-- The resource as reconciled by `ensurePresent sampleDesired` on an
empty world: fresh id, desired CIDR and tenancy, desired DHCP options and
effective tags. -/
def sampleCreated : VpcObj :=
  { id := "vpc-0", cidr_block := "10.0.0.0/16", instance_tenancy := "default",
    dhcp_options_id := "dopt-1",
    tags := [("env", "staging"), ("Name", "app-vpc")] }

theorem C1_counterexample :
    ({ sampleDesired with multi_ok := true } : DesiredState).multi_ok = true ∧
      (ensurePresent { sampleDesired with multi_ok := true } false
        emptyWorld).changedFlag = some true ∧
      (ensurePresent { sampleDesired with multi_ok := true } false
        (ensurePresent { sampleDesired with multi_ok := true } false
          emptyWorld).world).changedFlag = some true := by
  decide

theorem C1_witness :
    (ensurePresent sampleDesired false emptyWorld).world.findVpcs
        sampleDesired.name sampleDesired.cidr_block = [sampleCreated] ∧
      (ensurePresent sampleDesired false
          (ensurePresent sampleDesired false emptyWorld).world).outcome =
        .ok (false, some sampleCreated) :=
  C1_second_run_unchanged sampleDesired emptyWorld true sampleCreated rfl
    (by decide) (by decide) rfl (by decide)

/-- C7: in a real run whose DHCP and tag steps succeeded, the DNS
attributes are written unconditionally — the `setDnsAttributes` call is in
the trace even when no step changed anything — and the returned changed
flag is exactly the disjunction of the flags computed before the DNS step,
so this call's outcome never alters it. -/
theorem C7_dns_always_written (d : DesiredState) (ch0 ch1 ch2 : Bool)
    (v u : VpcObj) (w w1 w2 : World) (cs cs1 cs2 : List ServiceCall)
    (h1 : dhcpStage w false v d.dhcp_opts_id = (.ok ch1, w1, cs1))
    (h2 : update_vpc_tags w1 false v d.tags d.name = (.ok ch2, w2, cs2))
    (h3 : ServiceCall.setDnsAttributes v.id d.dns_support d.dns_hostnames ∉
      w2.failing)
    (h4 : ServiceCall.get v.id ∉ w2.failing)
    (h5 : w2.vpcs.find? (fun x => decide (x.id = v.id)) = some u) :
    presentRest d false ch0 v w cs =
        ⟨w2,
          cs ++ cs1 ++ cs2 ++
            [ServiceCall.setDnsAttributes v.id d.dns_support d.dns_hostnames] ++
            [ServiceCall.get v.id],
          .ok (ch0 || ch1 || ch2, some u)⟩ ∧
      ServiceCall.setDnsAttributes v.id d.dns_support d.dns_hostnames ∈
        (presentRest d false ch0 v w cs).calls := by
  have hmain : presentRest d false ch0 v w cs =
      ⟨w2,
        cs ++ cs1 ++ cs2 ++
          [ServiceCall.setDnsAttributes v.id d.dns_support d.dns_hostnames] ++
          [ServiceCall.get v.id],
        .ok (ch0 || ch1 || ch2, some u)⟩ := by
    unfold presentRest
    rw [h1]
    dsimp only
    rw [h2]
    dsimp only
    rw [dnsStage_real w2 v d.dns_support d.dns_hostnames h3]
    dsimp only
    rw [refetchStage_real w2 v u h4 h5]
  refine ⟨hmain, ?_⟩
  rw [hmain]
  simp

theorem C7_witness :
    (presentRest sampleDesired false false sampleVpc worldOne
          [ServiceCall.find "app-vpc" "10.0.0.0/16"] =
        ⟨worldOne,
          [ServiceCall.find "app-vpc" "10.0.0.0/16"] ++ [] ++
            [ServiceCall.getTags "vpc-a"] ++
            [ServiceCall.setDnsAttributes "vpc-a" true true] ++
            [ServiceCall.get "vpc-a"],
          .ok (false || false || false, some sampleVpc)⟩) ∧
      ServiceCall.setDnsAttributes "vpc-a" true true ∈
        (presentRest sampleDesired false false sampleVpc worldOne
          [ServiceCall.find "app-vpc" "10.0.0.0/16"]).calls :=
  C7_dns_always_written sampleDesired false false false sampleVpc sampleVpc
    worldOne worldOne worldOne [ServiceCall.find "app-vpc" "10.0.0.0/16"] []
    [ServiceCall.getTags "vpc-a"] (by decide) (by decide) (by decide)
    (by decide) (by decide)

theorem refetchStage_error_shape (w : World) (cm : Bool) (v : VpcObj) (e : RErr)
    (w4 : World) (cs4 : List ServiceCall)
    (h : refetchStage w cm v = (.error e, w4, cs4)) :
    e = .remote (ServiceCall.get v.id) := by
  unfold refetchStage at h
  cases cm
  · cases hfq : w.vpcs.find? (fun x => decide (x.id = v.id)) with
    | some u =>
      by_cases hg : ServiceCall.get v.id ∈ w.failing
      · simp [hg] at h
        exact h.1.symm
      · simp [hg, hfq] at h
    | none =>
      by_cases hg : ServiceCall.get v.id ∈ w.failing
      · simp [hg] at h
        exact h.1.symm
      · simp [hg, hfq] at h
        exact h.1.symm
  · simp at h

/-- C9 (amended): once the DHCP and tag steps succeeded and the DNS write
went through, the only remaining step that can fail before the result is
returned is the real-mode post-mutation re-fetch: any error the run still
returns is a remote error on the `get` call. -/
theorem C9_post_dns_failure_only_refetch (d : DesiredState) (ch0 ch1 ch2 : Bool)
    (v : VpcObj) (w w1 w2 : World) (cs cs1 cs2 : List ServiceCall) (e : RErr)
    (h1 : dhcpStage w false v d.dhcp_opts_id = (.ok ch1, w1, cs1))
    (h2 : update_vpc_tags w1 false v d.tags d.name = (.ok ch2, w2, cs2))
    (h3 : ServiceCall.setDnsAttributes v.id d.dns_support d.dns_hostnames ∉
      w2.failing)
    (he : (presentRest d false ch0 v w cs).outcome = .error e) :
    e = .remote (ServiceCall.get v.id) := by
  unfold presentRest at he
  rw [h1] at he
  dsimp only at he
  rw [h2] at he
  dsimp only at he
  rw [dnsStage_real w2 v d.dns_support d.dns_hostnames h3] at he
  dsimp only at he
  rcases hq : refetchStage w2 false v with ⟨val, w4, cs4⟩
  rw [hq] at he
  cases val with
  | error e2 =>
    dsimp only at he
    injection he with he
    rw [← he]
    exact refetchStage_error_shape w2 false v e2 w4 cs4 hq
  | ok vf =>
    dsimp only at he
    exact Except.noConfusion he

/-- A world holding the sample VPC whose remote service fails exactly the
by-id re-fetch of it. -/
def worldRefetchFail : World :=
  { vpcs := [sampleVpc], nextId := 0, defaultDhcpId := "dopt-0",
    failing := [ServiceCall.get "vpc-a"] }

theorem C9_counterexample :
    ServiceCall.setDnsAttributes "vpc-a" true true ∈
        (ensurePresent sampleDesired false worldRefetchFail).calls ∧
      ServiceCall.setDnsAttributes "vpc-a" true true ∉ worldRefetchFail.failing ∧
      (ensurePresent sampleDesired false worldRefetchFail).outcome =
        .error (.remote (ServiceCall.get "vpc-a")) := by
  decide

theorem C9_witness :
    RErr.remote (ServiceCall.get "vpc-a") =
      .remote (ServiceCall.get sampleVpc.id) :=
  C9_post_dns_failure_only_refetch sampleDesired false false false sampleVpc
    worldRefetchFail worldRefetchFail worldRefetchFail
    [ServiceCall.find "app-vpc" "10.0.0.0/16"] [] [ServiceCall.getTags "vpc-a"]
    (.remote (ServiceCall.get "vpc-a")) (by decide) (by decide) (by decide)
    (by decide)

theorem C5_witness :
    (dictLookup (dictUpdate ((some sampleTags).getD []) "Name" "app-vpc") "Name" =
        some "app-vpc" ∧
      ∀ k, k ≠ "Name" →
        dictLookup (dictUpdate ((some sampleTags).getD []) "Name" "app-vpc") k =
          dictLookup ((some sampleTags).getD []) k) ∧
      ((update_vpc_tags worldOne false sampleVpc (some sampleTags) "app-vpc").1 =
          .ok true ↔
        ¬(∀ p, p ∈ dictUpdate ((some sampleTags).getD []) "Name" "app-vpc" ↔
          p ∈ worldOne.getTags sampleVpc.id)) ∧
      (ServiceCall.setTags sampleVpc.id
          (dictUpdate ((some sampleTags).getD []) "Name" "app-vpc") ∈
          (update_vpc_tags worldOne false sampleVpc
            (some sampleTags) "app-vpc").2.2 ↔
        (¬(∀ p, p ∈ dictUpdate ((some sampleTags).getD []) "Name" "app-vpc" ↔
            p ∈ worldOne.getTags sampleVpc.id) ∧
          (false : Bool) = false)) :=
  C5_effective_tags worldOne false sampleVpc (some sampleTags) "app-vpc"
    (by decide) (by decide) (by decide) (by decide)
